import Mathlib

/-!
Shallow embedding of the `music-theory` repository (file `music_theory/main.py`)
and proofs about it.

Modelling conventions:
* Python machine integers are `Nat`/`Int`; Python `%` with the positive modulus
  12 is `Int.emod` (both always return a value in `[0, 12)` there).
* A Python function that can raise an uncaught exception (`ValueError` from
  `list.index`, `IndexError` from indexing, the explicit `IOError`) or that can
  fall off the end returning `None` is modelled with `Option` / an explicit
  result inductive.
* Lists stay `List`, strings stay `String` (Python strings are sequences of
  code points, as is `String.data`).
-/

namespace MusicTheory

/-- The empty string, used as an out-of-range default where Python indexing
could not actually go out of range. -/
def emptyStr : String := ""

/-- Source `ROMAN_NUMERALS` table from the source. -/
def ROMAN_NUMERALS : List String := ["i", "ii", "iii", "iv", "v", "vi", "vii"]

/-- Source `NOTES` pitch-name table from the source. -/
def NOTES : List String :=
  ["C", "C#", "D", "D#", "E", "F"] ++ ["F#", "G", "G#", "A", "A#", "B"]

/-- Source `NB_NOTES = len(NOTES)` from the source. -/
def NB_NOTES : Nat := NOTES.length

/-- The `MODES` enum from the source. -/
inductive MODES where
  | MAJOR
  | MINOR
deriving DecidableEq, Repr

/-- Source `MINOR_THIRD_INTERVAL` constant. -/
def MINOR_THIRD_INTERVAL : Int := 3

/-- Source `MAJOR_THIRD_INTERVAL` constant. -/
def MAJOR_THIRD_INTERVAL : Int := 4

/-- Source `PERFECT_FIFTH_INTERVAL` constant. -/
def PERFECT_FIFTH_INTERVAL : Int := 7

/-- The `Note` class: Python `__eq__` compares `note_index` only, so the
embedding keeps just the index (`note_value` is derived, see below). -/
structure Note where
  note_index : Nat
deriving DecidableEq, Repr

/-- The `note_value` attribute computed in `Note.__init__` as
`NOTES[note_index]` (out-of-range is unreachable on program paths). -/
def Note.note_value (n : Note) : String := NOTES.getD n.note_index emptyStr

/-- Source `Note.__add__`: `(self.note_index + other) % NB_NOTES`, for a Python int
`other` (possibly negative; Python `%` by a positive modulus is `Int.emod`). -/
def Note.add (n : Note) (other : Int) : Note :=
  ⟨(((n.note_index : Int) + other) % (NB_NOTES : Int)).toNat⟩

/-- Source `Note.__sub__`: `(self.note_index - other.note_index) % NB_NOTES`. -/
def Note.sub (a b : Note) : Int :=
  ((a.note_index : Int) - (b.note_index : Int)) % (NB_NOTES : Int)

/-- Python `list.index(a)`: the first position whose element equals `a`, a
`ValueError` when there is none being modelled as `none`. -/
def listIndex {α : Type} [DecidableEq α] : List α → α → Option Nat
  | [], _ => none
  | x :: xs, a => if x = a then some 0 else (listIndex xs a).map (fun i => i + 1)

/-- Source `Note.from_notation`: `NOTES.index(notation)`; a `ValueError` on a name
absent from the table is modelled as `none`. -/
def Note.from_notation (s : String) : Option Note :=
  (listIndex NOTES s).map Note.mk

/-- Source `is_minor_third(note1, note2)`: `note2 - note1 == MINOR_THIRD_INTERVAL`. -/
def is_minor_third (note1 note2 : Note) : Bool :=
  Note.sub note2 note1 == MINOR_THIRD_INTERVAL

/-- Source `is_major_third(note1, note2)`: `note2 - note1 == MAJOR_THIRD_INTERVAL`. -/
def is_major_third (note1 note2 : Note) : Bool :=
  Note.sub note2 note1 == MAJOR_THIRD_INTERVAL

/-- Source `is_perfect_fifth(note1, note2)`: `note2 - note1 == PERFECT_FIFTH_INTERVAL`. -/
def is_perfect_fifth (note1 note2 : Note) : Bool :=
  Note.sub note2 note1 == PERFECT_FIFTH_INTERVAL

/-- The `Chord` class: an ordered list of notes. -/
structure Chord where
  notes : List Note
deriving DecidableEq, Repr

/-- Source `Chord.is_major_triad`: false unless there are exactly 3 notes, then a
major third from note 0 to note 1 and a perfect fifth from note 0 to note 2. -/
def Chord.is_major_triad (c : Chord) : Bool :=
  match c.notes with
  | [n0, n1, n2] => is_major_third n0 n1 && is_perfect_fifth n0 n2
  | _ => false

/-- Source `Chord.is_minor_triad`: false unless there are exactly 3 notes, then a
minor third from note 0 to note 1 and a perfect fifth from note 0 to note 2. -/
def Chord.is_minor_triad (c : Chord) : Bool :=
  match c.notes with
  | [n0, n1, n2] => is_minor_third n0 n1 && is_perfect_fifth n0 n2
  | _ => false

/-- Source `Chord.is_diminished_triad`: false unless there are exactly 3 notes, then
minor thirds from note 0 to note 1 and from note 1 to note 2. -/
def Chord.is_diminished_triad (c : Chord) : Bool :=
  match c.notes with
  | [n0, n1, n2] => is_minor_third n0 n1 && is_minor_third n1 n2
  | _ => false

/-- Source `Chord.to_notation`: root name plus quality suffix; the Python function
returns `None` (here `none`) when no triad classification matches.  When some
classification matches the note list has 3 elements, so taking `head?` first
is faithful to Python's `self.notes[0]`. -/
def Chord.to_notation (c : Chord) : Option String :=
  match c.notes.head? with
  | some n0 =>
    if Chord.is_major_triad c then some (Note.note_value n0)
    else if Chord.is_minor_triad c then some (Note.note_value n0 ++ "m")
    else if Chord.is_diminished_triad c then some (Note.note_value n0 ++ "°")
    else none
  | none => none

/-- Python `s[:-1]`. -/
def strDropLast (s : String) : String := String.mk (s.data.dropLast)

/-- Source `Chord.from_chord_notation`: dispatch on the last character (Python
`chord_notation[-1]`, an `IndexError` on the empty string is `none`), parse
the root, and build the triad; falling off the end of the `if` chain is
Python `None`. -/
def Chord.from_chord_notation (s : String) : Option Chord :=
  match s.data.getLast? with
  | none => none
  | some ch =>
    if ch = '°' then
      ( Note.from_notation (strDropLast s)).map
        (fun root =>
          ⟨[root, Note.add root MINOR_THIRD_INTERVAL,
            Note.add root (2 * MINOR_THIRD_INTERVAL)]⟩)
    else if ch = 'm' then
      ( Note.from_notation (strDropLast s)).map
        (fun root =>
          ⟨[root, Note.add root MINOR_THIRD_INTERVAL,
            Note.add root PERFECT_FIFTH_INTERVAL]⟩)
    else if s ∈ NOTES then
      ( Note.from_notation s).map
        (fun root =>
          ⟨[root, Note.add root MAJOR_THIRD_INTERVAL,
            Note.add root PERFECT_FIFTH_INTERVAL]⟩)
    else none

/-- Source `get_root_and_mode_from_key`: trailing `m` means minor (root parsed from
`key[:-1]`), otherwise major (root parsed from the whole string); `key[-1]`
on the empty string raises, modelled as `none`. -/
def get_root_and_mode_from_key (s : String) : Option (Note × MODES) :=
  match s.data.getLast? with
  | none => none
  | some ch =>
    if ch = 'm' then
      ( Note.from_notation (strDropLast s)).map (fun r => (r, MODES.MINOR))
    else
      ( Note.from_notation s).map (fun r => (r, MODES.MAJOR))

/-- The `Key` class.  Python's `__init__` stores the notation, the parsed root
and mode, and the eagerly computed scale; the scale is a pure function of root
and mode, so the embedding stores the first three fields and derives the
scale (`Key.notes` below). -/
structure Key where
  key_notation : String
  root : Note
  mode : MODES
deriving DecidableEq, Repr

/-- Source `Key.__init__` up to the point where it would raise: parse root and mode
from the notation. -/
def mkKey (s : String) : Option Key :=
  (get_root_and_mode_from_key s).map (fun p => ⟨s, p.1, p.2⟩)

/-- The body of the Python loop `for step in steps: notes.append(notes[-1] + step)`
starting from an accumulated list. -/
def scaleLoop (notes : List Note) (steps : List Int) : List Note :=
  match steps with
  | [] => notes
  | st :: rest => scaleLoop (notes ++ [Note.add (notes.getLastD ⟨0⟩) st]) rest

/-- Source `Key.get_notes`: start from `[root]` and append `notes[-1] + step` for each
step of the mode's pattern. -/
def Key.get_notes (k : Key) : List Note :=
  match k.mode with
  | MODES.MAJOR => scaleLoop [k.root] [2, 2, 1, 2, 2, 2]
  | MODES.MINOR => scaleLoop [k.root] [2, 1, 2, 2, 1, 2]

/-- The `self.notes` attribute of `Key`. -/
def Key.notes (k : Key) : List Note := Key.get_notes k

/-- The `self.nb_notes` attribute of `Key`. -/
def Key.nb_notes (k : Key) : Nat := (Key.notes k).length

/-- Source `Key.contains_chord`: every note of the chord is in the scale (the Python
loop returns `False` at the first absent note, else `True`). -/
def Key.contains_chord (k : Key) (c : Chord) : Bool :=
  c.notes.all (fun n => decide (n ∈ Key.notes k))

/-- Result of `Key.get_numeral_from_chord`: Python raises `IndexError` on an
empty chord (`chord.notes[0]`), raises `IOError` when the root is not in the
key, returns a numeral string, or falls off the end returning `None`. -/
inductive NumeralResult where
  | indexError
  | rootNotInKey
  | noLabel
  | label (s : String)
deriving DecidableEq, Repr

/-- Python `str.upper()`, char-wise (the numerals it is applied to are ASCII,
where Python's mapping and `Char.toUpper` agree). -/
def strUpper (s : String) : String := String.mk (s.data.map Char.toUpper)

/-- Source `Key.get_numeral_from_chord`: look the chord's first note up in the scale
(`self.notes.index(root)`), then pick the numeral's case and decoration from
the triad classification. -/
def Key.get_numeral_from_chord (k : Key) (c : Chord) : NumeralResult :=
  match c.notes.head? with
  | none => NumeralResult.indexError
  | some root =>
    match listIndex (Key.notes k) root with
    | none => NumeralResult.rootNotInKey
    | some chord_value =>
      let numeral := ROMAN_NUMERALS.getD chord_value emptyStr
      if Chord.is_major_triad c then NumeralResult.label (strUpper numeral)
      else if Chord.is_minor_triad c then NumeralResult.label numeral
      else if Chord.is_diminished_triad c then NumeralResult.label (numeral ++ "°")
      else NumeralResult.noLabel

/-- Source `Key.all_keys`: for each pitch name in table order, the major key then the
minor key (every one of these 24 constructions succeeds, so `Option.toList`
contributes exactly one key each). -/
def all_keys : List Key :=
  NOTES.flatMap (fun n => (mkKey n).toList ++ (mkKey (n ++ "m")).toList)

/-- Source `Key.all_chords`: for `i` in `range(nb_notes)`, the chord built from scale
positions `i`, `(i+2) % nb_notes`, `(i+4) % nb_notes`. -/
def Key.all_chords (k : Key) : List Chord :=
  (List.range (Key.nb_notes k)).map
    (fun i =>
      ⟨[(Key.notes k).getD i ⟨0⟩,
        (Key.notes k).getD ((i + 2) % Key.nb_notes k) ⟨0⟩,
        (Key.notes k).getD ((i + 4) % Key.nb_notes k) ⟨0⟩]⟩)

/-- Source `find_keys`: fold over `all_keys`, appending a key when every chord is
contained in it (the Python inner loop computes `is_key` over all chords). -/
def find_keys (chords : List Chord) : List Key :=
  all_keys.foldl
    (fun keys key =>
      if chords.all (fun c => Key.contains_chord key c) then keys ++ [key] else keys)
    []

/-- Whether a numeral lookup produced an actual label. -/
def NumeralResult.isLabel : NumeralResult → Bool
  | NumeralResult.label _ => true
  | _ => false

/-- The text of a chord or key notation with a trailing `°` or `m` marker
removed when one is present (the claims describe parsing in these terms). -/
def stripTrailingMarker (s : String) : String :=
  match s.data.getLast? with
  | some ch => if ch = '°' ∨ ch = 'm' then strDropLast s else s
  | none => s

/-- The triad qualities of the chord-notation grammar. -/
inductive TriadQuality where
  | major
  | minor
  | diminished
deriving DecidableEq, Repr

/-- The suffix the grammar attaches for each triad quality. -/
def TriadQuality.suffix : TriadQuality → String
  | TriadQuality.major => emptyStr
  | TriadQuality.minor => "m"
  | TriadQuality.diminished => "°"

/-- A chord-notation string built by the grammar: a pitch name from the fixed
table followed by the quality's suffix. -/
def grammarString (p : Fin 12) (q : TriadQuality) : String :=
  NOTES.getD p.val emptyStr ++ TriadQuality.suffix q

/-! ### Helper lemmas -/

theorem listIndex_eq_none_iff {α : Type} [DecidableEq α] (l : List α) (a : α) :
    listIndex l a = none ↔ a ∉ l := by
  induction l with
  | nil => simp [listIndex]
  | cons x xs ih =>
    by_cases hx : x = a
    · subst hx
      simp [listIndex]
    · have hax : a ≠ x := fun h => hx h.symm
      simp [listIndex, hx, ih, hax]

theorem listIndex_eq_some_iff {α : Type} [DecidableEq α] (l : List α) (a d : α) (i : Nat) :
    listIndex l a = some i ↔
      i < l.length ∧ l.getD i d = a ∧ ∀ j, j < i → l.getD j d ≠ a := by
  induction l generalizing i with
  | nil => simp [listIndex]
  | cons x xs ih =>
    cases i with
    | zero =>
      by_cases hx : x = a
      · simp [listIndex, hx, List.getD]
      · simp only [listIndex, if_neg hx]
        constructor
        · intro h
          rcases Option.map_eq_some'.mp h with ⟨k, _, hk⟩
          omega
        · rintro ⟨-, hget, -⟩
          exact absurd (by simpa [List.getD] using hget) hx
    | succ n =>
      by_cases hx : x = a
      · subst hx
        simp only [listIndex, if_pos rfl]
        constructor
        · intro h
          exact absurd (Option.some.inj h) (by omega)
        · rintro ⟨-, -, hmin⟩
          exact absurd (by simp [List.getD]) (hmin 0 (Nat.succ_pos n))
      · simp only [listIndex, if_neg hx]
        constructor
        · intro h
          rcases Option.map_eq_some'.mp h with ⟨k, hk, hkn⟩
          have hk' := (ih k).mp hk
          obtain rfl : k = n := by omega
          refine ⟨by simpa using Nat.succ_lt_succ hk'.1, by simpa [List.getD] using hk'.2.1, ?_⟩
          intro j hj
          cases j with
          | zero => simpa [List.getD] using hx
          | succ m =>
            have := hk'.2.2 m (by omega)
            simpa [List.getD] using this
        · rintro ⟨hlen, hget, hmin⟩
          have hxs : listIndex xs a = some n := by
            refine (ih n).mpr ⟨by simpa using hlen, by simpa [List.getD] using hget, ?_⟩
            intro j hj
            have := hmin (j + 1) (by omega)
            simpa [List.getD] using this
          simp [hxs]

theorem foldl_append_filter {α : Type} (p : α → Bool) (l acc : List α) :
    l.foldl (fun ks k => if p k then ks ++ [k] else ks) acc = acc ++ l.filter p := by
  induction l generalizing acc with
  | nil => simp
  | cons x xs ih =>
    by_cases hx : p x
    · simp [List.foldl, hx, ih, List.filter_cons]
    · simp [List.foldl, hx, ih, List.filter_cons]

theorem scaleLoop_concat (pre : List Note) (x : Note) (steps : List Int) :
    scaleLoop (pre ++ [x]) steps =
      pre ++ List.scanl (fun n st => Note.add n st) x steps := by
  induction steps generalizing pre x with
  | nil => simp [scaleLoop, List.scanl]
  | cons st rest ih =>
    rw [scaleLoop]
    rw [List.getLastD_concat]
    have := ih (pre ++ [x]) (Note.add x st)
    rw [this]
    simp [List.scanl]

theorem key_notes_eq_scanl (k : Key) :
    Key.notes k =
      List.scanl (fun n st => Note.add n st) k.root
        (match k.mode with
         | MODES.MAJOR => [2, 2, 1, 2, 2, 2]
         | MODES.MINOR => [2, 1, 2, 2, 1, 2]) := by
  cases hm : k.mode <;>
    · simp only [Key.notes, Key.get_notes, hm]
      simpa using scaleLoop_concat [] k.root _

theorem key_notes_length (k : Key) : (Key.notes k).length = 7 := by
  rw [key_notes_eq_scanl]
  cases k.mode <;> simp [List.length_scanl]

theorem key_nb_notes (k : Key) : Key.nb_notes k = 7 := by
  simp [Key.nb_notes, key_notes_length]

theorem from_notation_eq_none (s : String) :
    Note.from_notation s = none ↔ s ∉ NOTES := by
  simp [ Note.from_notation, listIndex_eq_none_iff]

theorem get_numeral_eq (k : Key) (root : Note) (rest : List Note) :
    Key.get_numeral_from_chord k ⟨root :: rest⟩ =
      (match listIndex (Key.notes k) root with
       | none => NumeralResult.rootNotInKey
       | some chord_value =>
         if Chord.is_major_triad ⟨root :: rest⟩ then
           NumeralResult.label (strUpper (ROMAN_NUMERALS.getD chord_value emptyStr))
         else if Chord.is_minor_triad ⟨root :: rest⟩ then
           NumeralResult.label (ROMAN_NUMERALS.getD chord_value emptyStr)
         else if Chord.is_diminished_triad ⟨root :: rest⟩ then
           NumeralResult.label (ROMAN_NUMERALS.getD chord_value emptyStr ++ "°")
         else NumeralResult.noLabel) := rfl

theorem grm_eq (s : String) :
    get_root_and_mode_from_key s =
      (if s.data.getLast? = some 'm' then
         ( Note.from_notation (strDropLast s)).map (fun r => (r, MODES.MINOR))
       else if s.data.getLast? = none then none
       else ( Note.from_notation s).map (fun r => (r, MODES.MAJOR))) := by
  cases hl : s.data.getLast? with
  | none => simp [get_root_and_mode_from_key, hl]
  | some ch => by_cases h : ch = 'm' <;> simp [get_root_and_mode_from_key, hl, h]

theorem key_notes_eq_scanl_if (k : Key) :
    Key.notes k =
      List.scanl (fun n st => Note.add n st) k.root
        (if k.mode = MODES.MAJOR then [2, 2, 1, 2, 2, 2] else [2, 1, 2, 2, 1, 2]) := by
  rw [key_notes_eq_scanl k]
  cases k.mode <;> simp

/-! ### Claim theorems -/

/-- C1: `find_keys` returns exactly the keys of the fixed 24-key enumeration
for which `contains_chord` holds for every input chord, preserving the
enumeration order of `all_keys`; that enumeration has 24 keys, in pitch-table
order with the major key before the minor key at each root, and `find_keys`
of the empty chord list is all of it. -/
theorem C1_find_keys (chords : List Chord) :
    find_keys chords =
      all_keys.filter (fun k => chords.all (fun c => Key.contains_chord k c)) ∧
    find_keys [] = all_keys ∧
    all_keys.length = 24 ∧
    all_keys.map (fun k => (Note.note_index (Key.root k), Key.mode k)) =
      (List.range 12).flatMap (fun i => [(i, MODES.MAJOR), (i, MODES.MINOR)]) := by
  refine ⟨?_, ?_, by decide, by decide⟩
  · simpa [find_keys] using
      foldl_append_filter (fun k => chords.all (fun c => Key.contains_chord k c)) all_keys []
  · simpa [find_keys] using
      foldl_append_filter (fun k => List.all [] (fun c => Key.contains_chord k c)) all_keys []

/-- C2 counterexample: against key G, the chord parsed from "B" is a major
triad, so its degree label is the uppercase "III"; the claimed label "iii" is
wrong. -/
theorem C2_counterexample :
    (mkKey ("G")).map
        (fun k => Key.get_numeral_from_chord k (( Chord.from_chord_notation ("B")).getD ⟨[]⟩)) =
      some (NumeralResult.label ("III")) ∧
    NumeralResult.label ("III") ≠ NumeralResult.label ("iii") := by
  exact ⟨by decide, by decide⟩

/-- C2 (amended): against key G (major), the chords parsed from "G", "B", "C"
receive degree labels I, III, IV respectively ("B" parses as a major triad, so
its numeral is uppercase); and for the chord parsed from "Cm", `contains_chord`
is false while the degree label still succeeds as "iv" — all simultaneously. -/
theorem C2_amended :
    (mkKey ("G")).map
        (fun k =>
          (Key.get_numeral_from_chord k (( Chord.from_chord_notation ("G")).getD ⟨[]⟩),
           Key.get_numeral_from_chord k (( Chord.from_chord_notation ("B")).getD ⟨[]⟩),
           Key.get_numeral_from_chord k (( Chord.from_chord_notation ("C")).getD ⟨[]⟩),
           Key.contains_chord k (( Chord.from_chord_notation ("Cm")).getD ⟨[]⟩),
           Key.get_numeral_from_chord k (( Chord.from_chord_notation ("Cm")).getD ⟨[]⟩))) =
      some (NumeralResult.label ("I"), NumeralResult.label ("III"),
            NumeralResult.label ("IV"), false, NumeralResult.label ("iv")) := by
  decide

/-- C3: for every chord-notation string built by the grammar (a pitch name
from the fixed table, optionally suffixed with "m" or "°"), parsing it with
`from_chord_notation` and rendering the result with `to_notation` gives back
the original string. -/
theorem C3_roundtrip (p : Fin 12) (q : TriadQuality) :
    ( Chord.from_chord_notation (grammarString p q)).bind Chord.to_notation =
      some (grammarString p q) := by
  revert p
  cases q <;> decide

/-- C4: `get_numeral_from_chord` looks the chord's first note up in the key's
7-note scale, fails with `RootNotInKey` exactly when that note is absent from
the scale, and, when the note first occurs at zero-based scale position `i`,
returns the Roman numeral at position `i` — uppercase for a major triad,
lowercase for a minor triad, lowercase plus "°" for a diminished triad, and
no label when the chord matches none of the three qualities. -/
theorem C4_degree_label (k : Key) (c : Chord) (root : Note) (rest : List Note)
    (hc : c.notes = root :: rest) :
    (Key.notes k).length = 7 ∧
    (Key.get_numeral_from_chord k c = NumeralResult.rootNotInKey ↔ root ∉ Key.notes k) ∧
    (∀ i, i < (Key.notes k).length → (Key.notes k).getD i ⟨0⟩ = root →
      (∀ j, j < i → (Key.notes k).getD j ⟨0⟩ ≠ root) →
      Key.get_numeral_from_chord k c =
        (if Chord.is_major_triad c then
           NumeralResult.label (strUpper (ROMAN_NUMERALS.getD i emptyStr))
         else if Chord.is_minor_triad c then
           NumeralResult.label (ROMAN_NUMERALS.getD i emptyStr)
         else if Chord.is_diminished_triad c then
           NumeralResult.label (ROMAN_NUMERALS.getD i emptyStr ++ "°")
         else NumeralResult.noLabel)) := by
  obtain ⟨cnotes⟩ := c
  obtain rfl : cnotes = root :: rest := hc
  refine ⟨key_notes_length k, ?_, ?_⟩
  · rw [get_numeral_eq]
    cases hidx : listIndex (Key.notes k) root with
    | none =>
      have hmem : root ∉ Key.notes k := (listIndex_eq_none_iff _ _).mp hidx
      simp [hmem]
    | some n =>
      have hmem : root ∈ Key.notes k := by
        by_contra hne
        rw [(listIndex_eq_none_iff _ _).mpr hne] at hidx
        cases hidx
      constructor
      · intro h
        split_ifs at h
      · intro h
        exact absurd hmem h
  · intro i hi hget hmin
    have hidx : listIndex (Key.notes k) root = some i :=
      (listIndex_eq_some_iff _ root ⟨0⟩ i).mpr ⟨hi, hget, hmin⟩
    rw [get_numeral_eq, hidx]

/-- C4 witness: in the key of G major the chord G (notes G, B, D) is a major
triad whose root G is at scale position 0, so the label is the uppercase
numeral "I". -/
theorem C4_witness :
    Key.get_numeral_from_chord ⟨("G"), ⟨7⟩, MODES.MAJOR⟩ ⟨[⟨7⟩, ⟨11⟩, ⟨2⟩]⟩ =
      NumeralResult.label ("I") := by
  have h := (C4_degree_label ⟨("G"), ⟨7⟩, MODES.MAJOR⟩ ⟨[⟨7⟩, ⟨11⟩, ⟨2⟩]⟩ ⟨7⟩ [⟨11⟩, ⟨2⟩]
      rfl).2.2 0 (by decide) (by decide) (fun j hj => absurd hj (Nat.not_lt_zero j))
  rw [h]
  decide

/-- C5: `from_chord_notation` fails (returns no chord) on every string whose
text, after removing one trailing "°" or "m" marker when present, is not one
of the 12 recognized pitch names. -/
theorem C5_invalid_chord (s : String) (h : stripTrailingMarker s ∉ NOTES) :
    Chord.from_chord_notation s = none := by
  cases hl : s.data.getLast? with
  | none => simp [ Chord.from_chord_notation, hl]
  | some ch =>
    simp only [stripTrailingMarker, hl] at h
    by_cases h1 : ch = '°'
    · have hns : strDropLast s ∉ NOTES := by simpa [h1] using h
      simp [ Chord.from_chord_notation, hl, h1, (from_notation_eq_none _).mpr hns]
    · by_cases h2 : ch = 'm'
      · have hns : strDropLast s ∉ NOTES := by simpa [h1, h2] using h
        simp [ Chord.from_chord_notation, hl, h1, h2, (from_notation_eq_none _).mpr hns]
      · have hs : s ∉ NOTES := by simpa [h1, h2] using h
        simp [ Chord.from_chord_notation, hl, h1, h2, hs]

/-- C5 witness: "H" strips to "H", which is not a pitch name, and indeed
parsing it yields no chord. -/
theorem C5_witness : Chord.from_chord_notation ("H") = none :=
  C5_invalid_chord ("H") (by decide)

/-- C6: key construction takes a trailing "m" as minor mode and its absence
as major, resolves the remaining text to a root pitch — failing exactly when
that text is outside the fixed table — and derives a scale of exactly 7
pitches by cumulatively adding the mode's step pattern to the root
(2,2,1,2,2,2 for major; 2,1,2,2,1,2 for minor). -/
theorem C6_key_construction (s : String) :
    (mkKey s = none ↔
      (if s.data.getLast? = some 'm' then strDropLast s else s) ∉ NOTES) ∧
    (∀ k, mkKey s = some k →
      k.mode = (if s.data.getLast? = some 'm' then MODES.MINOR else MODES.MAJOR) ∧
      Note.from_notation (if s.data.getLast? = some 'm' then strDropLast s else s) =
        some k.root ∧
      (Key.notes k).length = 7 ∧
      Key.notes k =
        List.scanl (fun n st => Note.add n st) k.root
          (if k.mode = MODES.MAJOR then [2, 2, 1, 2, 2, 2] else [2, 1, 2, 2, 1, 2])) := by
  constructor
  · rw [mkKey, Option.map_eq_none', grm_eq]
    by_cases hm : s.data.getLast? = some 'm'
    · simp [hm, Option.map_eq_none', from_notation_eq_none]
    · by_cases hn : s.data.getLast? = none
      · obtain ⟨data⟩ := s
        cases data with
        | nil => simp [hm, hn]; decide
        | cons c cs => exact absurd hn (by simp [List.getLast?_concat])
      · simp [hm, hn, Option.map_eq_none', from_notation_eq_none]
  · intro k hk
    rw [mkKey] at hk
    obtain ⟨p, hp, hpk⟩ := Option.map_eq_some'.mp hk
    rw [grm_eq] at hp
    by_cases hm : s.data.getLast? = some 'm'
    · rw [if_pos hm] at hp
      obtain ⟨r, hr, hrp⟩ := Option.map_eq_some'.mp hp
      subst hpk
      obtain rfl : p = (r, MODES.MINOR) := hrp.symm
      exact ⟨by simp [hm], by simp [hm, hr], key_notes_length _, key_notes_eq_scanl_if _⟩
    · by_cases hn : s.data.getLast? = none
      · rw [if_neg hm, if_pos hn] at hp
        cases hp
      · rw [if_neg hm, if_neg hn] at hp
        obtain ⟨r, hr, hrp⟩ := Option.map_eq_some'.mp hp
        subst hpk
        obtain rfl : p = (r, MODES.MAJOR) := hrp.symm
        exact ⟨by simp [hm], by simp [hm, hr], key_notes_length _, key_notes_eq_scanl_if _⟩

/-- C6 witness: "Am" ends in "m", so the constructed key is minor with root A
and a 7-note scale. -/
theorem C6_witness :
    Key.mode (⟨("Am"), ⟨9⟩, MODES.MINOR⟩ : Key) =
      (if ("Am" : String).data.getLast? = some 'm' then MODES.MINOR else MODES.MAJOR) ∧
    (Key.notes (⟨("Am"), ⟨9⟩, MODES.MINOR⟩ : Key)).length = 7 := by
  have h := (C6_key_construction ("Am")).2 ⟨("Am"), ⟨9⟩, MODES.MINOR⟩ (by decide)
  exact ⟨h.1, h.2.2.1⟩

/-- C7: every chord without exactly 3 notes is classified as none of the three
triad qualities, and on any chord at most one of the three predicates holds
(an unrecognized 3-note pattern such as the augmented triad C-E-G# satisfies
none of them). -/
theorem C7_classification (c : Chord) :
    (c.notes.length ≠ 3 →
      Chord.is_major_triad c = false ∧ Chord.is_minor_triad c = false ∧
        Chord.is_diminished_triad c = false) ∧
    (¬(Chord.is_major_triad c = true ∧ Chord.is_minor_triad c = true)) ∧
    (¬(Chord.is_major_triad c = true ∧ Chord.is_diminished_triad c = true)) ∧
    (¬(Chord.is_minor_triad c = true ∧ Chord.is_diminished_triad c = true)) ∧
    (Chord.is_major_triad ⟨[⟨0⟩, ⟨4⟩, ⟨8⟩]⟩ = false ∧
      Chord.is_minor_triad ⟨[⟨0⟩, ⟨4⟩, ⟨8⟩]⟩ = false ∧
      Chord.is_diminished_triad ⟨[⟨0⟩, ⟨4⟩, ⟨8⟩]⟩ = false) := by
  obtain ⟨notes⟩ := c
  have h12 : (NB_NOTES : Int) = 12 := by decide
  rcases notes with _ | ⟨n0, _ | ⟨n1, _ | ⟨n2, _ | ⟨n3, rest⟩⟩⟩⟩
  · exact ⟨fun _ => ⟨rfl, rfl, rfl⟩, fun h => Bool.false_ne_true h.1,
      fun h => Bool.false_ne_true h.1, fun h => Bool.false_ne_true h.1, by decide⟩
  · exact ⟨fun _ => ⟨rfl, rfl, rfl⟩, fun h => Bool.false_ne_true h.1,
      fun h => Bool.false_ne_true h.1, fun h => Bool.false_ne_true h.1, by decide⟩
  · exact ⟨fun _ => ⟨rfl, rfl, rfl⟩, fun h => Bool.false_ne_true h.1,
      fun h => Bool.false_ne_true h.1, fun h => Bool.false_ne_true h.1, by decide⟩
  · refine ⟨fun h => absurd rfl h, ?_, ?_, ?_, by decide⟩
    all_goals
      rintro ⟨hA, hB⟩
      simp only [Chord.is_major_triad, Chord.is_minor_triad, Chord.is_diminished_triad,
        is_major_third, is_minor_third, is_perfect_fifth, Note.sub,
        MAJOR_THIRD_INTERVAL, MINOR_THIRD_INTERVAL, PERFECT_FIFTH_INTERVAL,
        Bool.and_eq_true, beq_iff_eq, h12] at hA hB
    · exact absurd (hA.1.symm.trans hB.1) (by decide)
    · exact absurd (hA.1.symm.trans hB.1) (by decide)
    · have hsplit : ((n2.note_index : Int) - (n0.note_index : Int)) =
          ((n1.note_index : Int) - (n0.note_index : Int)) +
            ((n2.note_index : Int) - (n1.note_index : Int)) := by ring
      have h6 : ((n2.note_index : Int) - (n0.note_index : Int)) % 12 = 6 := by
        rw [hsplit, Int.add_emod, hA.1, hB.2]
        decide
      exact absurd (h6.symm.trans hA.2) (by decide)
  · exact ⟨fun _ => ⟨rfl, rfl, rfl⟩, fun h => Bool.false_ne_true h.1,
      fun h => Bool.false_ne_true h.1, fun h => Bool.false_ne_true h.1, by decide⟩

/-- C7 witness: a 1-note chord is classified as none of the three triad
qualities. -/
theorem C7_witness :
    Chord.is_major_triad ⟨[⟨0⟩]⟩ = false ∧ Chord.is_minor_triad ⟨[⟨0⟩]⟩ = false ∧
      Chord.is_diminished_triad ⟨[⟨0⟩]⟩ = false :=
  (C7_classification ⟨[⟨0⟩]⟩).1 (by decide)

/-- C8: adding any integer to a valid pitch wraps modulo 12 and yields a valid
pitch, and the difference of two valid pitches is the ascending semitone
distance in `[0, 12)` from the second to the first: adding it back to the
second pitch recovers the first. -/
theorem C8_pitch_arithmetic (a b : Note) (n : Int)
    (ha : a.note_index < 12) (hb : b.note_index < 12) :
    (((Note.add a n).note_index : Int) = ((a.note_index : Int) + n) % 12 ∧
      (Note.add a n).note_index < 12) ∧
    (0 ≤ Note.sub b a ∧ Note.sub b a < 12 ∧ Note.add a (Note.sub b a) = b) := by
  have h12 : (NB_NOTES : Int) = 12 := by decide
  obtain ⟨bidx⟩ := b
  refine ⟨⟨?_, ?_⟩, ?_, ?_, ?_⟩
  · simp only [Note.add, h12]
    exact Int.toNat_of_nonneg (Int.emod_nonneg _ (by decide))
  · simp only [Note.add, h12]
    have h1 : 0 ≤ ((a.note_index : Int) + n) % 12 := Int.emod_nonneg _ (by decide)
    have h2 : ((a.note_index : Int) + n) % 12 < 12 := Int.emod_lt_of_pos _ (by decide)
    omega
  · simp only [Note.sub, h12]
    exact Int.emod_nonneg _ (by decide)
  · simp only [Note.sub, h12]
    exact Int.emod_lt_of_pos _ (by decide)
  · have hb' : bidx < 12 := hb
    simp only [Note.add, Note.sub, h12, Note.mk.injEq]
    show ((((a.note_index : Int)) + (((bidx : Int) - (a.note_index : Int)) % 12)) % 12).toNat =
      bidx
    rw [Int.add_emod, Int.emod_emod_of_dvd _ dvd_rfl, ← Int.add_emod]
    have hab : (a.note_index : Int) + ((bidx : Int) - (a.note_index : Int)) = (bidx : Int) := by
      ring
    rw [hab]
    omega

/-- C8 witness: from pitch C (index 0), adding -3 gives A (index 9), and the
ascending distance from C (index 0) to F (index 5) is 5. -/
theorem C8_witness :
    ((((Note.add ⟨0⟩ (-3)).note_index : Int) = (((0 : Nat) : Int) + (-3)) % 12 ∧
        (Note.add ⟨0⟩ (-3)).note_index < 12) ∧
      (0 ≤ Note.sub ⟨5⟩ ⟨0⟩ ∧ Note.sub ⟨5⟩ ⟨0⟩ < 12 ∧
        Note.add ⟨0⟩ (Note.sub ⟨5⟩ ⟨0⟩) = ⟨5⟩)) :=
  C8_pitch_arithmetic ⟨0⟩ ⟨5⟩ (-3) (by decide) (by decide)

/-- C9: for every key, `all_chords` yields exactly 7 triads in ascending
degree order, the one at degree `i` drawing scale positions `i`, `(i+2) % 7`
and `(i+4) % 7`; for the key G the first triad is the major triad on G
(notes G, B, D), rendered by `to_notation` as "G". -/
theorem C9_all_chords (k : Key) :
    (Key.all_chords k).length = 7 ∧
    (∀ i, i < 7 →
      (Key.all_chords k).getD i ⟨[]⟩ =
        ⟨[(Key.notes k).getD i ⟨0⟩,
          (Key.notes k).getD ((i + 2) % 7) ⟨0⟩,
          (Key.notes k).getD ((i + 4) % 7) ⟨0⟩]⟩) ∧
    ((mkKey ("G")).map (fun g => (Key.all_chords g).headD ⟨[]⟩) =
      some ⟨[⟨7⟩, ⟨11⟩, ⟨2⟩]⟩) ∧
    ((mkKey ("G")).map
        (fun g => ( Chord.to_notation ((Key.all_chords g).headD ⟨[]⟩),
                    Chord.is_major_triad ((Key.all_chords g).headD ⟨[]⟩))) =
      some (some ("G"), true)) := by
  refine ⟨?_, ?_, by decide, by decide⟩
  · simp [Key.all_chords, key_nb_notes]
  · intro i hi
    simp only [Key.all_chords, key_nb_notes]
    rw [List.getD_eq_getElem?_getD, List.getElem?_map, List.getElem?_range hi]
    rfl

/-- C9 witness: in the key of G major, the triad at degree 0 takes scale
positions 0, 2 and 4. -/
theorem C9_witness :
    (Key.all_chords ⟨("G"), ⟨7⟩, MODES.MAJOR⟩).getD 0 ⟨[]⟩ =
      ⟨[(Key.notes ⟨("G"), ⟨7⟩, MODES.MAJOR⟩).getD 0 ⟨0⟩,
        (Key.notes ⟨("G"), ⟨7⟩, MODES.MAJOR⟩).getD ((0 + 2) % 7) ⟨0⟩,
        (Key.notes ⟨("G"), ⟨7⟩, MODES.MAJOR⟩).getD ((0 + 4) % 7) ⟨0⟩]⟩ :=
  (C9_all_chords ⟨("G"), ⟨7⟩, MODES.MAJOR⟩).2.1 0 (by decide)

/-- C10: every triad yielded by `all_chords` of any of the 24 enumerated keys
is contained in that key and is classified as exactly one of major, minor or
diminished, so `to_notation` and `get_numeral_from_chord` both produce a
result for every diatonic triad of every key. -/
theorem C10_diatonic_triads :
    ∀ k, k ∈ all_keys → ∀ c, c ∈ Key.all_chords k →
      Key.contains_chord k c = true ∧
      ( Chord.to_notation c).isSome = true ∧
      NumeralResult.isLabel (Key.get_numeral_from_chord k c) = true ∧
      ((Chord.is_major_triad c = true ∧ Chord.is_minor_triad c = false ∧
          Chord.is_diminished_triad c = false) ∨
       (Chord.is_major_triad c = false ∧ Chord.is_minor_triad c = true ∧
          Chord.is_diminished_triad c = false) ∨
       (Chord.is_major_triad c = false ∧ Chord.is_minor_triad c = false ∧
          Chord.is_diminished_triad c = true)) := by
  decide

/-- C10 witness: the first diatonic triad of C major (C-E-G) is contained in
the key, has a rendering and a numeral, and is exactly a major triad. -/
theorem C10_witness :
    Key.contains_chord ⟨("C"), ⟨0⟩, MODES.MAJOR⟩ ⟨[⟨0⟩, ⟨4⟩, ⟨7⟩]⟩ = true ∧
    ( Chord.to_notation ⟨[⟨0⟩, ⟨4⟩, ⟨7⟩]⟩).isSome = true ∧
    NumeralResult.isLabel
        (Key.get_numeral_from_chord ⟨("C"), ⟨0⟩, MODES.MAJOR⟩ ⟨[⟨0⟩, ⟨4⟩, ⟨7⟩]⟩) = true ∧
    ((Chord.is_major_triad (⟨[⟨0⟩, ⟨4⟩, ⟨7⟩]⟩ : Chord) = true ∧
        Chord.is_minor_triad (⟨[⟨0⟩, ⟨4⟩, ⟨7⟩]⟩ : Chord) = false ∧
        Chord.is_diminished_triad (⟨[⟨0⟩, ⟨4⟩, ⟨7⟩]⟩ : Chord) = false) ∨
     (Chord.is_major_triad (⟨[⟨0⟩, ⟨4⟩, ⟨7⟩]⟩ : Chord) = false ∧
        Chord.is_minor_triad (⟨[⟨0⟩, ⟨4⟩, ⟨7⟩]⟩ : Chord) = true ∧
        Chord.is_diminished_triad (⟨[⟨0⟩, ⟨4⟩, ⟨7⟩]⟩ : Chord) = false) ∨
     (Chord.is_major_triad (⟨[⟨0⟩, ⟨4⟩, ⟨7⟩]⟩ : Chord) = false ∧
        Chord.is_minor_triad (⟨[⟨0⟩, ⟨4⟩, ⟨7⟩]⟩ : Chord) = false ∧
        Chord.is_diminished_triad (⟨[⟨0⟩, ⟨4⟩, ⟨7⟩]⟩ : Chord) = true)) :=
  C10_diatonic_triads ⟨("C"), ⟨0⟩, MODES.MAJOR⟩ (by decide) ⟨[⟨0⟩, ⟨4⟩, ⟨7⟩]⟩ (by decide)

end MusicTheory
